import Mathlib

/-!
Shallow embedding of `src/audio_equalizer.py` (class `AudioEqualizer`).

Number representation: the Python code computes in IEEE doubles; the
embedding uses exact rationals (ℚ).  The two transcendental ingredients of
`create_peak_filter` — the pair `(sin ω0, cos ω0)` with `ω0 = 2π·f0/fs`,
and the dB→linear conversion `A = 10^(gain_db/20)` — are irrational for the
frequencies and gains of the band table, so they are passed to the embedded
functions as explicit parameters (`trig : ℚ → ℚ × ℚ` mapping a center
frequency to its `(sin ω0, cos ω0)` pair, and `amp : ℚ → ℚ` mapping a gain
in dB to its linear amplitude).  Theorems quantify over these parameters,
adding as hypotheses only the facts the source guarantees about them
(e.g. `0 < sin ω0` for `0 < f0 < fs/2`, `0 < A` always); concrete witnesses
instantiate them with exact rational stand-ins such as
`(sin ω0, cos ω0) = (3/5, 4/5)`, which is realised by a genuine admissible
frequency `f0 = fs·arcsin(3/5)/(2π) ∈ (0, fs/4)`.

A block of audio is a list of channels, each channel a list of samples
(the mono 1-D and stereo 2-D numpy branches of `apply_equalizer` both
apply `scipy.signal.lfilter` independently per channel, so a mono array is
the one-channel case).
-/

namespace Equalizer

/-- One channel of samples. -/
abbrev Channel := List ℚ

/-- An audio block: one list of samples per channel. -/
abbrev Block := List Channel

/-- `self.sample_rate = 44100` from `AudioEqualizer.__init__`. -/
def sample_rate : ℚ := 44100

/-- `self.block_size = 2048` from `AudioEqualizer.__init__`. -/
def block_size : ℕ := 2048

/-- `self.q_factor = 1.0` from `AudioEqualizer.__init__`. -/
def q_factor : ℚ := 1

/-- The fixed band table `self.bands` from `AudioEqualizer.__init__`:
label and center frequency in Hz, in the source's (ascending-frequency)
insertion order. -/
def bands : List (String × ℚ) :=
  [("60 Hz", 60), ("170 Hz", 170), ("310 Hz", 310), ("600 Hz", 600),
   ("1 kHz", 1000), ("3 kHz", 3000), ("6 kHz", 6000), ("12 kHz", 12000),
   ("14 kHz", 14000), ("16 kHz", 16000)]

/-- The labels of the band table (the key set of the `self.gains` dict). -/
def band_labels : List String := bands.map Prod.fst

/-- The gain table `self.gains`: gain in dB per band label.  The source
dict has exactly the ten band labels as keys; a total function on labels
carries the same information for those labels. -/
abbrev Gains := String → ℚ

/-- `self.gains = {band: 0.0 for band in self.bands}`: every band starts
at 0 dB. -/
def init_gains : Gains := fun _ => 0

/-- Error taxonomy of the spec (§7).  The Python source can in principle
raise exceptions, so the embedded boundary operations return
`Except EqError`; a body that raises nothing is embedded as always
returning `Except.ok`. -/
inductive EqError where
  | unknownBand : EqError
  | invalidParameter : EqError
deriving DecidableEq

/-- A normalized biquad coefficient set: five reals `(b0, b1, b2, a1, a2)`
with `a0 = 1` implicit — the content of the pair of arrays
`b = [b0/a0, b1/a0, b2/a0]`, `a = [1, a1/a0, a2/a0]` returned by
`create_peak_filter`. -/
structure Biquad where
  b0 : ℚ
  b1 : ℚ
  b2 : ℚ
  a1 : ℚ
  a2 : ℚ
deriving DecidableEq

/-- The six unnormalized coefficients computed in `create_peak_filter`
before the division by `a0`. -/
structure BiquadRaw where
  b0 : ℚ
  b1 : ℚ
  b2 : ℚ
  a0 : ℚ
  a1 : ℚ
  a2 : ℚ
deriving DecidableEq

/-- The unnormalized coefficient computation of `create_peak_filter`,
with `s = sin ω0`, `c = cos ω0`, `A = 10^(gain_db/20)` (the linear gain)
and `q` the Q factor:
`alpha = sin(w0) / (2*q)`; `b0 = 1+alpha*A`; `b1 = -2*cos(w0)`;
`b2 = 1-alpha*A`; `a0 = 1+alpha/A`; `a1 = -2*cos(w0)`; `a2 = 1-alpha/A`. -/
def peakRaw (s c A q : ℚ) : BiquadRaw :=
  let alpha := s / (2 * q)
  { b0 := 1 + alpha * A
    b1 := -2 * c
    b2 := 1 - alpha * A
    a0 := 1 + alpha / A
    a1 := -2 * c
    a2 := 1 - alpha / A }

/-- The normalization step of `create_peak_filter`: divide everything by
`a0` (`b = [b0/a0, b1/a0, b2/a0]`, `a = [1, a1/a0, a2/a0]`). -/
def normalizeRaw (r : BiquadRaw) : Biquad :=
  { b0 := r.b0 / r.a0
    b1 := r.b1 / r.a0
    b2 := r.b2 / r.a0
    a1 := r.a1 / r.a0
    a2 := r.a2 / r.a0 }

/-- The normalized coefficients produced by `create_peak_filter` as a
function of `s = sin ω0`, `c = cos ω0`, linear gain `A` and Q factor. -/
def peakCoeffs (s c A q : ℚ) : Biquad := normalizeRaw (peakRaw s c A q)

/-- `AudioEqualizer.create_peak_filter(center_freq, gain_db, q_factor)`:
looks up `(sin ω0, cos ω0)` for the requested center frequency via the
`trig` parameter and the linear amplitude `10^(gain_db/20)` via the `amp`
parameter, then computes the normalized biquad.  The body performs no
validation and raises nothing, so the result is always `Except.ok`. -/
def create_peak_filter (trig : ℚ → ℚ × ℚ) (amp : ℚ → ℚ)
    (center_freq gain_db q : ℚ) : Except EqError Biquad :=
  Except.ok (peakCoeffs (trig center_freq).1 (trig center_freq).2
    (amp gain_db) q)

/-- `AudioEqualizer.set_gain(band_name, gain_db)`:
`if band_name in self.gains: self.gains[band_name] = gain_db`.
An unknown label takes the (implicit) else branch, which does nothing;
no exception is raised on either path, so both branches are `Except.ok`. -/
def set_gain (gains : Gains) (band_name : String) (gain_db : ℚ) :
    Except EqError Gains :=
  if band_name ∈ band_labels then
    Except.ok (fun l => if l = band_name then gain_db else gains l)
  else
    Except.ok gains

/-- One step of `scipy.signal.lfilter` for a second-order section in
direct form II transposed (scipy's implementation), on state `(z1, z2)`:
`y = b0*x + z1`; `z1' = b1*x - a1*y + z2`; `z2' = b2*x - a2*y`. -/
def lfilterStep (cb : Biquad) (st : ℚ × ℚ) (x : ℚ) : ℚ × (ℚ × ℚ) :=
  let y := cb.b0 * x + st.1
  (y, (cb.b1 * x - cb.a1 * y + st.2, cb.b2 * x - cb.a2 * y))

/-- `lfilter` recursion from a given filter state. -/
def lfilterAux (cb : Biquad) (st : ℚ × ℚ) : Channel → Channel
  | [] => []
  | x :: xs =>
    let p := lfilterStep cb st x
    p.1 :: lfilterAux cb p.2 xs

/-- `scipy.signal.lfilter(b, a, x)` for a normalized biquad, exactly as
the source calls it: with NO `zi` argument, i.e. from ZERO initial
filter state on every call. -/
def lfilter (cb : Biquad) (xs : Channel) : Channel :=
  lfilterAux cb (0, 0) xs

/-- `np.clip(x, -1.0, 1.0)` on one sample. -/
def clip (x : ℚ) : ℚ := min (max x (-1)) 1

/-- `np.clip(output, -1.0, 1.0)` on a whole block. -/
def clipBlock (b : Block) : Block := b.map (fun ch => ch.map clip)

/-- One iteration of the band loop in `apply_equalizer`: for band
`(band_name, center_freq)` with current gains table `gains`,
`if abs(gain_db) > 0.1` the band's biquad is applied to every channel by
`signal.lfilter`, otherwise the block passes through untouched. -/
def bandStep (trig : ℚ → ℚ × ℚ) (amp : ℚ → ℚ) (q : ℚ) (gains : Gains)
    (out : Block) (band : String × ℚ) : Block :=
  let gain_db := gains band.1
  if 1/10 < |gain_db| then
    out.map (lfilter (peakCoeffs (trig band.2).1 (trig band.2).2
      (amp gain_db) q))
  else
    out

/-- The band loop of `apply_equalizer` over an explicit band list. -/
def cascade (trig : ℚ → ℚ × ℚ) (amp : ℚ → ℚ) (q : ℚ) (gains : Gains)
    (block : Block) (bs : List (String × ℚ)) : Block :=
  bs.foldl (bandStep trig amp q gains) block

/-- `AudioEqualizer.apply_equalizer(audio_data)`: copy the input, run the
band cascade over the fixed band table, then clip to `[-1, 1]`.  The
initial `.copy()` has no effect on the returned value (it only protects
the caller's array, see the heap model below). -/
def apply_equalizer (trig : ℚ → ℚ × ℚ) (amp : ℚ → ℚ) (q : ℚ)
    (gains : Gains) (audio_data : Block) : Block :=
  clipBlock (cascade trig amp q gains audio_data bands)

/-- Successive `process` calls: the class stores no filter state
whatsoever between `apply_equalizer` calls (no `zi` is kept), so feeding
blocks one at a time is exactly an independent `apply_equalizer` per
block. -/
def processBlocks (trig : ℚ → ℚ × ℚ) (amp : ℚ → ℚ) (q : ℚ)
    (gains : Gains) (blocks : List Block) : List Block :=
  blocks.map (apply_equalizer trig amp q gains)

/-! Heap model for the frame-effect claim.  numpy arrays are mutable
objects passed by reference; to state that `apply_equalizer` never mutates
the array handed to it, blocks live in an explicit heap (a list of array
values) and the function receives a reference (an index).  Each statement
of the Python body becomes an operation on this heap:
`output = audio_data.copy()` allocates a fresh cell holding the input's
value; the stereo branch `output[:, ch] = signal.lfilter(...)` writes
through the `output` reference (per-channel writes of one band are
combined into one whole-array write, which has the same effect on the
heap); `output = np.clip(...)` allocates the clipped value and rebinds the
local name.  Had the source aliased (`output = audio_data`), the writes
would hit the caller's cell and the frame theorem below would be false. -/

/-- The heap: array values addressed by index. -/
abbrev Heap := List Block

/-- Dereference an array reference. -/
def heapRead (h : Heap) (r : ℕ) : Block := h.getD r []

/-- Overwrite the array behind a reference. -/
def heapWrite (h : Heap) (r : ℕ) (b : Block) : Heap := h.set r b

/-- One band-loop iteration of `apply_equalizer` acting on the heap:
a non-skipped band filters every channel of the array behind `rOut` in
place; a skipped band leaves the heap untouched. -/
def heapBandStep (trig : ℚ → ℚ × ℚ) (amp : ℚ → ℚ) (q : ℚ) (gains : Gains)
    (rOut : ℕ) (h : Heap) (band : String × ℚ) : Heap :=
  let gain_db := gains band.1
  if 1/10 < |gain_db| then
    heapWrite h rOut ((heapRead h rOut).map (lfilter
      (peakCoeffs (trig band.2).1 (trig band.2).2 (amp gain_db) q)))
  else h

/-- `apply_equalizer` on the heap: the caller's array sits behind
reference `r`; the result is the heap after the call together with the
reference to the returned array. -/
def apply_equalizer_heap (trig : ℚ → ℚ × ℚ) (amp : ℚ → ℚ) (q : ℚ)
    (gains : Gains) (h : Heap) (r : ℕ) : Heap × ℕ :=
  let rOut := h.length
  let h1 := h ++ [heapRead h r]
  let h2 := bands.foldl (heapBandStep trig amp q gains rOut) h1
  (h2 ++ [clipBlock (heapRead h2 rOut)], h2.length)

/-! Concrete instances used to evaluate the code on the block-splitting
failing input of the history claim: one band ("1 kHz") boosted, linear
amplitude stand-in `A = 2` (a boost of about 6.02 dB), transcendental
stand-in `(sin ω0, cos ω0) = (3/5, 4/5)`. -/

/-- Concrete trig table: every band maps to `(sin ω0, cos ω0) = (3/5, 4/5)`
(only the one applied band's value matters below). -/
def trig1 : ℚ → ℚ × ℚ := fun _ => (3/5, 4/5)

/-- Concrete dB→linear map sending the one active gain 6 dB to amplitude
2 (10^(6/20) ≈ 1.995; the exact value is irrelevant to statelessness,
which holds for every amplitude map). -/
def amp1 : ℚ → ℚ := fun g => if g = 6 then 2 else 1

/-- Concrete gain table: "1 kHz" boosted by 6 dB, every other band at
0 dB. -/
def gains1 : Gains := fun name => if name = "1 kHz" then 6 else 0

/-! Helper lemmas shared by the claim theorems. -/

/-- A band whose gain is at most 0.1 dB in magnitude takes the else branch
of the band loop and leaves the block untouched. -/
theorem bandStep_of_small (trig : ℚ → ℚ × ℚ) (amp : ℚ → ℚ) (q : ℚ)
    (gains : Gains) (out : Block) (band : String × ℚ)
    (h : |gains band.1| ≤ 1/10) :
    bandStep trig amp q gains out band = out := by
  simp only [bandStep]
  rw [if_neg (not_lt.mpr h)]

/-- A band whose gain exceeds 0.1 dB in magnitude takes the then branch
and filters every channel. -/
theorem bandStep_of_large (trig : ℚ → ℚ × ℚ) (amp : ℚ → ℚ) (q : ℚ)
    (gains : Gains) (out : Block) (band : String × ℚ)
    (h : 1/10 < |gains band.1|) :
    bandStep trig amp q gains out band =
      out.map (lfilter (peakCoeffs (trig band.2).1 (trig band.2).2
        (amp (gains band.1)) q)) := by
  simp only [bandStep]
  rw [if_pos h]

/-- `lfilterAux` emits exactly one output sample per input sample. -/
theorem lfilterAux_length (cb : Biquad) (xs : Channel) :
    ∀ st : ℚ × ℚ, (lfilterAux cb st xs).length = xs.length := by
  induction xs with
  | nil => intro st; rfl
  | cons x xs ih => intro st; simp [lfilterAux, ih]

/-- `lfilter` preserves the number of samples of a channel. -/
theorem lfilter_length (cb : Biquad) (xs : Channel) :
    (lfilter cb xs).length = xs.length :=
  lfilterAux_length cb xs (0, 0)

/-- One band-loop iteration preserves the channel count and the length of
every channel. -/
theorem bandStep_shape (trig : ℚ → ℚ × ℚ) (amp : ℚ → ℚ) (q : ℚ)
    (gains : Gains) (out : Block) (band : String × ℚ) :
    (bandStep trig amp q gains out band).map List.length =
      out.map List.length := by
  simp only [bandStep]
  by_cases h : 1/10 < |gains band.1|
  · rw [if_pos h, List.map_map]
    exact List.map_congr_left fun ch _ => lfilter_length _ ch
  · rw [if_neg h]

/-- The whole band cascade preserves the channel count and the length of
every channel. -/
theorem cascade_shape (trig : ℚ → ℚ × ℚ) (amp : ℚ → ℚ) (q : ℚ)
    (gains : Gains) (bs : List (String × ℚ)) :
    ∀ block : Block,
      (cascade trig amp q gains block bs).map List.length =
        block.map List.length := by
  induction bs with
  | nil => intro block; rfl
  | cons b bs ih =>
    intro block
    simp only [cascade, List.foldl_cons] at ih ⊢
    rw [ih, bandStep_shape]

/-- Clipping preserves the channel count and the length of every channel. -/
theorem clipBlock_shape (b : Block) :
    (clipBlock b).map List.length = b.map List.length := by
  simp only [clipBlock, List.map_map]
  exact List.map_congr_left fun ch _ => List.length_map ch clip

/-- Every clipped sample is at least -1. -/
theorem clip_lower (x : ℚ) : -1 ≤ clip x :=
  le_min (le_max_right x (-1)) (by norm_num)

/-- Every clipped sample is at most 1. -/
theorem clip_upper (x : ℚ) : clip x ≤ 1 :=
  min_le_right _ _

/-- A biquad whose numerator equals its denominator (after normalization)
is the identity filter from zero initial state. -/
theorem lfilterAux_id (cb : Biquad) (h0 : cb.b0 = 1) (h1 : cb.b1 = cb.a1)
    (h2 : cb.b2 = cb.a2) (xs : Channel) :
    lfilterAux cb (0, 0) xs = xs := by
  induction xs with
  | nil => rfl
  | cons x xs ih =>
    have e1 : (lfilterStep cb (0, 0) x).1 = x := by
      simp [lfilterStep, h0]
    have e2 : (lfilterStep cb (0, 0) x).2 = (0, 0) := by
      simp [lfilterStep, h0, h1, h2]
    simp only [lfilterAux, e1, e2, ih]

/-! Claim theorems. -/

/-- C2 counterexample: `set_gain` on the unknown label `"not-a-band"` with
gain 3.0 returns the gain table unchanged and does NOT signal `UnknownBand`
— the source's `if band_name in self.gains` guard silently ignores unknown
labels, so the claimed error never happens. -/
theorem c2_counterexample :
    set_gain init_gains ("not-a-band") 3 = Except.ok init_gains ∧
      set_gain init_gains ("not-a-band") 3 ≠
        Except.error EqError.unknownBand := by
  constructor
  · rw [set_gain, if_neg (by decide)]
  · rw [set_gain, if_neg (by decide)]
    exact fun h => Except.noConfusion h

/-- C2 (amended): for every label not in the fixed band set, `set_gain`
leaves the gain table unchanged and signals no error at all (silent
no-op); no `UnknownBand` error is raised. -/
theorem c2_unknown_band_silent (gains : Gains) (name : String) (g : ℚ)
    (h : name ∉ band_labels) :
    set_gain gains name g = Except.ok gains := by
  rw [set_gain, if_neg h]

/-- C2 witness: the amended theorem applied at the concrete unknown label
of the spec's scenario. -/
theorem c2_witness :
    ("not-a-band") ∉ band_labels ∧
      set_gain (fun _ => (0 : ℚ)) ("not-a-band") 3 =
        Except.ok (fun _ => (0 : ℚ)) :=
  ⟨by decide, c2_unknown_band_silent (fun _ => (0 : ℚ)) ("not-a-band") 3
    (by decide)⟩

/-- C3 counterexample: at `f0 = 44100`, which lies outside
`(0, fs/2) = (0, 22050)`, `create_peak_filter` does NOT signal
`InvalidParameter`: it returns coefficients (the body has no validation at
all).  The trig parameter carries `(sin ω0, cos ω0) = (0, 1)`, the exact
values at `ω0 = 2π·44100/44100 = 2π`. -/
theorem c3_counterexample :
    sample_rate / 2 ≤ 44100 ∧
      create_peak_filter (fun _ => ((0 : ℚ), 1)) (fun _ => (2 : ℚ))
          44100 6 1 ≠ Except.error EqError.invalidParameter ∧
      (create_peak_filter (fun _ => ((0 : ℚ), 1)) (fun _ => (2 : ℚ))
          44100 6 1).isOk = true := by
  refine ⟨by norm_num [sample_rate], fun h => Except.noConfusion h, rfl⟩

/-- C3 (amended): `create_peak_filter` performs no range validation: for
every center frequency outside `(0, fs/2)` (and indeed for every input) it
still returns formula-computed coefficients and never signals an error. -/
theorem c3_no_validation (trig : ℚ → ℚ × ℚ) (amp : ℚ → ℚ)
    (f0 g q : ℚ) (h : f0 ≤ 0 ∨ sample_rate / 2 ≤ f0) :
    (create_peak_filter trig amp f0 g q).isOk = true := rfl

/-- C3 witness: the amended theorem applied at the out-of-range frequency
`f0 = 44100 ≥ fs/2`. -/
theorem c3_witness :
    ((44100 : ℚ) ≤ 0 ∨ sample_rate / 2 ≤ 44100) ∧
      (create_peak_filter (fun _ => ((0 : ℚ), 1)) (fun _ => (2 : ℚ))
        44100 6 1).isOk = true :=
  ⟨Or.inr (by norm_num [sample_rate]),
    c3_no_validation (fun _ => ((0 : ℚ), 1)) (fun _ => (2 : ℚ)) 44100 6 1
      (Or.inr (by norm_num [sample_rate]))⟩

/-- C8: for every admissible input the unnormalized `a0 = 1 + α/A` is
strictly positive, so the normalization divisions never divide by zero.
The hypotheses are the source constraints transported through the
transcendental bridge: `0 < s` is `sin ω0 > 0`, which holds exactly when
`0 < f0 < fs/2` (then `ω0 = 2π·f0/fs ∈ (0, π)`); `0 < A` holds for every
finite gain since `A = 10^(G_dB/20)`; `0 < q` is the Q constraint. -/
theorem c8_a0_positive (s c A q : ℚ) (hs : 0 < s) (hA : 0 < A)
    (hq : 0 < q) : 0 < (peakRaw s c A q).a0 := by
  have halpha : 0 < s / (2 * q) / A := by positivity
  simp only [peakRaw]
  linarith

/-- C8 witness: `a0 > 0` at the concrete admissible point
`(sin ω0, cos ω0) = (3/5, 4/5)`, `A = 2` (a boost), `Q = 1`. -/
theorem c8_witness :
    (0 : ℚ) < 3/5 ∧ (0 : ℚ) < 2 ∧ (0 : ℚ) < 1 ∧
      0 < (peakRaw (3/5) (4/5) 2 1).a0 :=
  ⟨by norm_num, by norm_num, by norm_num,
    c8_a0_positive (3/5) (4/5) 2 1 (by norm_num) (by norm_num) (by norm_num)⟩

/-- C4 counterexample: at zero gain (`A = 10^(0/20) = 1`), `Q = 1` and the
admissible frequency point `(sin ω0, cos ω0) = (3/5, 4/5)` (realised by
`f0 = fs·arcsin(3/5)/(2π) ∈ (0, fs/4)`), the normalized coefficient `b1`
equals `-16/13 ≈ -1.23`, not `0`: its distance from the claimed identity
value exceeds 1, far beyond floating-point tolerance.  The synthesized
biquad at 0 dB is therefore NOT the coefficient tuple
`(1, 0, 0, 0, 0)`. -/
theorem c4_counterexample :
    (peakCoeffs (3/5) (4/5) 1 1).b1 = -16/13 ∧
      (1 : ℚ) < |(-16/13 : ℚ) - 0| := by
  constructor
  · norm_num [peakCoeffs, peakRaw, normalizeRaw]
  · rw [abs_of_nonpos (by norm_num)]
    norm_num

/-- C4 (amended): at zero gain (`A = 1`) the synthesized normalized biquad
has `b0 = 1`, `b1 = a1` and `b2 = a2` — numerator equal to denominator —
so it realises the identity TRANSFER FUNCTION: applying it to any signal
from zero filter state returns the signal unchanged.  The individual
coefficients `b1 = a1 = -2·cos ω0/a0` and `b2 = a2` are not zero in
general.  Hypotheses as in C8: `0 < s` is `0 < f0 < fs/2`, `0 < q` is the
Q constraint. -/
theorem c4_zero_gain_identity (s c q : ℚ) (hs : 0 < s) (hq : 0 < q) :
    (peakCoeffs s c 1 q).b0 = 1 ∧
      (peakCoeffs s c 1 q).b1 = (peakCoeffs s c 1 q).a1 ∧
      (peakCoeffs s c 1 q).b2 = (peakCoeffs s c 1 q).a2 ∧
      ∀ xs : Channel, lfilter (peakCoeffs s c 1 q) xs = xs := by
  have ha0 : (0 : ℚ) < 1 + s / (2 * q) := by positivity
  have h0 : (peakCoeffs s c 1 q).b0 = 1 := by
    simp only [peakCoeffs, peakRaw, normalizeRaw, mul_one, div_one]
    exact div_self (ne_of_gt ha0)
  have h1 : (peakCoeffs s c 1 q).b1 = (peakCoeffs s c 1 q).a1 := by
    simp only [peakCoeffs, peakRaw, normalizeRaw]
  have h2 : (peakCoeffs s c 1 q).b2 = (peakCoeffs s c 1 q).a2 := by
    simp only [peakCoeffs, peakRaw, normalizeRaw, mul_one, div_one]
  exact ⟨h0, h1, h2, fun xs => lfilterAux_id _ h0 h1 h2 xs⟩

/-- C4 witness: the amended theorem at the concrete admissible point
`(sin ω0, cos ω0) = (3/5, 4/5)`, `Q = 1`, on the concrete signal
`[1/2, -1/3]`. -/
theorem c4_witness :
    (0 : ℚ) < 3/5 ∧ (0 : ℚ) < 1 ∧
      lfilter (peakCoeffs (3/5) (4/5) 1 1) [1/2, -1/3] = [1/2, -1/3] :=
  ⟨by norm_num, by norm_num,
    (c4_zero_gain_identity (3/5) (4/5) 1 (by norm_num)
      (by norm_num)).2.2.2 [1/2, -1/3]⟩

/-- C5: for every input block with samples in `[-1, 1]` and every gain
table (hence every sequence of `set_gain` calls), every sample of the
block returned by `process` lies in `[-1, 1]`: the final
`np.clip(output, -1.0, 1.0)` bounds every sample unconditionally. -/
theorem c5_output_range (trig : ℚ → ℚ × ℚ) (amp : ℚ → ℚ) (q : ℚ)
    (gains : Gains) (block : Block)
    (hin : ∀ ch ∈ block, ∀ x ∈ ch, -1 ≤ x ∧ x ≤ 1) :
    ∀ ch ∈ apply_equalizer trig amp q gains block, ∀ y ∈ ch,
      -1 ≤ y ∧ y ≤ 1 := by
  intro ch hch y hy
  simp only [apply_equalizer, clipBlock, List.mem_map] at hch
  obtain ⟨ch0, _, rfl⟩ := hch
  simp only [List.mem_map] at hy
  obtain ⟨x, _, rfl⟩ := hy
  exact ⟨clip_lower x, clip_upper x⟩

/-- C5 witness: the range invariant at a concrete in-range block with a
6 dB boost active on every band. -/
theorem c5_witness :
    (∀ ch ∈ [[(1 : ℚ)/2, -1]], ∀ x ∈ ch, -1 ≤ x ∧ x ≤ 1) ∧
      ∀ ch ∈ apply_equalizer (fun _ => ((3 : ℚ)/5, 4/5)) (fun _ => (2 : ℚ))
          1 (fun _ => (6 : ℚ)) [[(1 : ℚ)/2, -1]], ∀ y ∈ ch,
        -1 ≤ y ∧ y ≤ 1 :=
  ⟨by norm_num, c5_output_range _ _ _ _ _ (by norm_num)⟩

/-- C6: a band is skipped — contributes nothing to the cascade, as if
deleted from the band list — exactly when `|gain_dB| ≤ 0.1`; when
`0.1 < |gain_dB|` the band loop applies that band's biquad to every
channel. -/
theorem c6_skip_threshold (trig : ℚ → ℚ × ℚ) (amp : ℚ → ℚ) (q : ℚ)
    (gains : Gains) (block blk : Block) (pre post : List (String × ℚ))
    (band : String × ℚ) :
    (|gains band.1| ≤ 1/10 →
      cascade trig amp q gains block (pre ++ band :: post) =
        cascade trig amp q gains block (pre ++ post)) ∧
    (1/10 < |gains band.1| →
      bandStep trig amp q gains blk band =
        blk.map (lfilter (peakCoeffs (trig band.2).1 (trig band.2).2
          (amp (gains band.1)) q))) := by
  constructor
  · intro h
    simp only [cascade, List.foldl_append, List.foldl_cons]
    rw [bandStep_of_small _ _ _ _ _ _ h]
  · intro h
    exact bandStep_of_large _ _ _ _ _ _ h

/-- C6 witness: both directions of the threshold at concrete inputs — a
0 dB band in the middle of a two-band list is dropped, and a 6 dB band
(`A = 2`) filters the block. -/
theorem c6_witness :
    (|(0 : ℚ)| ≤ 1/10 ∧
      cascade (fun _ => ((3 : ℚ)/5, 4/5)) (fun _ => (2 : ℚ)) 1
          (fun _ => (0 : ℚ)) [[(1 : ℚ)/2]]
          ([("60 Hz", 60)] ++ ("1 kHz", 1000) :: []) =
        cascade (fun _ => ((3 : ℚ)/5, 4/5)) (fun _ => (2 : ℚ)) 1
          (fun _ => (0 : ℚ)) [[(1 : ℚ)/2]] ([("60 Hz", 60)] ++ [])) ∧
    ((1 : ℚ)/10 < |(6 : ℚ)| ∧
      bandStep (fun _ => ((3 : ℚ)/5, 4/5)) (fun _ => (2 : ℚ)) 1
          (fun _ => (6 : ℚ)) [[(1 : ℚ)/2]] ("1 kHz", 1000) =
        [[(1 : ℚ)/2]].map (lfilter (peakCoeffs (3/5) (4/5) 2 1))) :=
  ⟨⟨by norm_num,
    (c6_skip_threshold (fun _ => ((3 : ℚ)/5, 4/5)) (fun _ => (2 : ℚ)) 1
      (fun _ => (0 : ℚ)) [[(1 : ℚ)/2]] [[(1 : ℚ)/2]] [("60 Hz", 60)] []
      ("1 kHz", 1000)).1 (by norm_num)⟩,
   ⟨by norm_num,
    (c6_skip_threshold (fun _ => ((3 : ℚ)/5, 4/5)) (fun _ => (2 : ℚ)) 1
      (fun _ => (6 : ℚ)) [[(1 : ℚ)/2]] [[(1 : ℚ)/2]] [] []
      ("1 kHz", 1000)).2 (by norm_num)⟩⟩

/-- C7: when every band's gain is 0 dB, `process` is pure pass-through
plus limiting: every band is skipped (`|0| ≤ 0.1`), so the output is
exactly the elementwise clip of the input. -/
theorem c7_zero_gains_passthrough (trig : ℚ → ℚ × ℚ) (amp : ℚ → ℚ)
    (q : ℚ) (gains : Gains) (block : Block)
    (h : ∀ b ∈ bands, gains b.1 = 0) :
    apply_equalizer trig amp q gains block = clipBlock block := by
  suffices hcas : ∀ bs : List (String × ℚ), (∀ b ∈ bs, gains b.1 = 0) →
      cascade trig amp q gains block bs = block by
    simp only [apply_equalizer]
    rw [hcas bands h]
  intro bs
  induction bs with
  | nil => intro _; rfl
  | cons b bs ih =>
    intro hb
    simp only [cascade, List.foldl_cons] at ih ⊢
    rw [bandStep_of_small _ _ _ _ _ _
      (by rw [hb b (by simp)]; norm_num)]
    exact ih fun x hx => hb x (by simp [hx])

/-- C7 witness: pass-through plus limiting at the all-zero gain table on a
concrete block with one out-of-range sample. -/
theorem c7_witness :
    (∀ b ∈ bands, init_gains b.1 = 0) ∧
      apply_equalizer (fun _ => ((3 : ℚ)/5, 4/5)) (fun _ => (2 : ℚ)) 1
          init_gains [[(3 : ℚ)/2, -1/2]] =
        clipBlock [[(3 : ℚ)/2, -1/2]] :=
  ⟨fun b _ => rfl,
    c7_zero_gains_passthrough _ _ _ _ _ (fun b _ => rfl)⟩

/-- C9: for every input block of any channel count and any per-channel
length, the output of `process` has the same channel count and the same
number of samples per channel: the per-channel length profile is
preserved. -/
theorem c9_shape_preserved (trig : ℚ → ℚ × ℚ) (amp : ℚ → ℚ) (q : ℚ)
    (gains : Gains) (block : Block) :
    (apply_equalizer trig amp q gains block).map List.length =
      block.map List.length := by
  simp only [apply_equalizer]
  rw [clipBlock_shape, cascade_shape]

/-- Appending a fresh allocation does not change what existing references
point to. -/
theorem heapRead_append (h : Heap) (x : Block) (r : ℕ)
    (hr : r < h.length) : heapRead (h ++ [x]) r = heapRead h r := by
  simp only [heapRead]
  exact List.getD_append _ _ _ _ hr

/-- Writing through one reference does not change what a different
reference points to. -/
theorem heapRead_write_ne (h : Heap) (i r : ℕ) (b : Block) (hne : r ≠ i) :
    heapRead (heapWrite h i b) r = heapRead h r := by
  simp only [heapRead, heapWrite, List.getD_eq_getElem?_getD,
    List.getElem?_set_ne (Ne.symm hne)]

/-- One heap band step writes only through `rOut`. -/
theorem heapBandStep_read_ne (trig : ℚ → ℚ × ℚ) (amp : ℚ → ℚ) (q : ℚ)
    (gains : Gains) (rOut r : ℕ) (h : Heap) (band : String × ℚ)
    (hne : r ≠ rOut) :
    heapRead (heapBandStep trig amp q gains rOut h band) r =
      heapRead h r := by
  simp only [heapBandStep]
  by_cases hb : 1/10 < |gains band.1|
  · rw [if_pos hb, heapRead_write_ne _ _ _ _ hne]
  · rw [if_neg hb]

/-- The whole heap band loop writes only through `rOut`. -/
theorem heapFold_read_ne (trig : ℚ → ℚ × ℚ) (amp : ℚ → ℚ) (q : ℚ)
    (gains : Gains) (rOut r : ℕ) (bs : List (String × ℚ)) (hne : r ≠ rOut) :
    ∀ h : Heap,
      heapRead (bs.foldl (heapBandStep trig amp q gains rOut) h) r =
        heapRead h r := by
  induction bs with
  | nil => intro h; rfl
  | cons b bs ih =>
    intro h
    simp only [List.foldl_cons]
    rw [ih, heapBandStep_read_ne _ _ _ _ _ _ _ _ hne]

/-- One heap band step allocates nothing. -/
theorem heapBandStep_length (trig : ℚ → ℚ × ℚ) (amp : ℚ → ℚ) (q : ℚ)
    (gains : Gains) (rOut : ℕ) (h : Heap) (band : String × ℚ) :
    (heapBandStep trig amp q gains rOut h band).length = h.length := by
  simp only [heapBandStep]
  by_cases hb : 1/10 < |gains band.1|
  · rw [if_pos hb]
    exact List.length_set _ _ _
  · rw [if_neg hb]

/-- The whole heap band loop allocates nothing. -/
theorem heapFold_length (trig : ℚ → ℚ × ℚ) (amp : ℚ → ℚ) (q : ℚ)
    (gains : Gains) (rOut : ℕ) (bs : List (String × ℚ)) :
    ∀ h : Heap,
      (bs.foldl (heapBandStep trig amp q gains rOut) h).length =
        h.length := by
  induction bs with
  | nil => intro h; rfl
  | cons b bs ih =>
    intro h
    simp only [List.foldl_cons]
    rw [ih, heapBandStep_length]

/-- C10: `process` never mutates its argument: for every heap and every
valid reference `r` to the caller's input array, the array behind `r`
holds exactly the same samples after `apply_equalizer` returns as before
the call — the body works on the `.copy()` allocated at entry. -/
theorem c10_input_not_mutated (trig : ℚ → ℚ × ℚ) (amp : ℚ → ℚ) (q : ℚ)
    (gains : Gains) (h : Heap) (r : ℕ) (hr : r < h.length) :
    heapRead (apply_equalizer_heap trig amp q gains h r).1 r =
      heapRead h r := by
  have hne : r ≠ h.length := ne_of_lt hr
  have hlen1 : (h ++ [heapRead h r]).length = h.length + 1 := by
    simp
  have hfoldlen :
      (bands.foldl (heapBandStep trig amp q gains h.length)
        (h ++ [heapRead h r])).length = h.length + 1 := by
    rw [heapFold_length, hlen1]
  simp only [apply_equalizer_heap]
  rw [heapRead_append _ _ _ (by rw [hfoldlen]; omega)]
  rw [heapFold_read_ne _ _ _ _ _ _ _ hne]
  exact heapRead_append _ _ _ hr

/-- C10 witness: the frame property at a concrete one-cell heap holding a
one-channel block, with a 6 dB boost active on every band. -/
theorem c10_witness :
    0 < ([[[(1 : ℚ)/2, 1]]] : Heap).length ∧
      heapRead (apply_equalizer_heap (fun _ => ((3 : ℚ)/5, 4/5))
          (fun _ => (2 : ℚ)) 1 (fun _ => (6 : ℚ))
          [[[(1 : ℚ)/2, 1]]] 0).1 0 =
        heapRead [[[(1 : ℚ)/2, 1]]] 0 :=
  ⟨by norm_num,
    c10_input_not_mutated (fun _ => ((3 : ℚ)/5, 4/5)) (fun _ => (2 : ℚ))
      1 (fun _ => (6 : ℚ)) [[[(1 : ℚ)/2, 1]]] 0 (by norm_num)⟩

/-- C1: the code does NOT persist filter history across `process` calls —
`apply_equalizer` calls `scipy.signal.lfilter` with no `zi` and the class
stores no per-band/per-channel state, so every call filters from zero
history.  Failing input: the mono signal `[1, 0]` with the "1 kHz" band
boosted (linear amplitude 2, about +6 dB) and all other bands at 0 dB,
split into the blocks `[1]` and `[0]`.  Blockwise processing returns
`[1]` then `[0]` (the second block starts from zero history, so zero
input gives zero output), while processing the whole signal in one call
returns `[1, 288/529]`: the second sample diverges (`288/529 ≈ 0.544`,
versus `0`), so blockwise output is not numerically close to whole-signal
output, contradicting the claimed block-continuity property. -/
theorem c1_no_history_across_blocks :
    processBlocks trig1 amp1 q_factor gains1 [[[(1 : ℚ)]], [[0]]] =
        [[[1]], [[0]]] ∧
      apply_equalizer trig1 amp1 q_factor gains1 [[(1 : ℚ), 0]] =
        [[1, 288/529]] ∧
      (288 : ℚ)/529 ≠ 0 := by
  have hno : ¬((1 : ℚ)/10 < |(0 : ℚ)|) := by norm_num
  have hyes : (1 : ℚ)/10 < |(6 : ℚ)| := by norm_num
  have hwhole : apply_equalizer trig1 amp1 q_factor gains1
      [[(1 : ℚ), 0]] = [[1, 288/529]] := by
    simp [apply_equalizer, cascade, bands, bandStep, gains1, trig1, amp1,
      q_factor, hno, hyes]
    norm_num [peakCoeffs, peakRaw, normalizeRaw, lfilter, lfilterAux,
      lfilterStep, clipBlock, clip, max_def, min_def]
  have hb1 : apply_equalizer trig1 amp1 q_factor gains1 [[(1 : ℚ)]] =
      [[1]] := by
    simp [apply_equalizer, cascade, bands, bandStep, gains1, trig1, amp1,
      q_factor, hno, hyes]
    norm_num [peakCoeffs, peakRaw, normalizeRaw, lfilter, lfilterAux,
      lfilterStep, clipBlock, clip, max_def, min_def]
  have hb2 : apply_equalizer trig1 amp1 q_factor gains1 [[(0 : ℚ)]] =
      [[0]] := by
    simp [apply_equalizer, cascade, bands, bandStep, gains1, trig1, amp1,
      q_factor, hno, hyes]
    norm_num [peakCoeffs, peakRaw, normalizeRaw, lfilter, lfilterAux,
      lfilterStep, clipBlock, clip, max_def, min_def]
  refine ⟨?_, hwhole, by norm_num⟩
  simp only [processBlocks, List.map_cons, List.map_nil, hb1, hb2]

end Equalizer
